import Mathlib

/-!
Verification of the conventional-commit validator in
GithubConventionalCommitEnforcer.

The repository is a GitHub Action (src/src/index.js and a PR-title variant)
that classifies commit messages / PR titles as conforming or not to the
conventional-commit grammar and restricts the commit type to an allow-list.
The evaluator logic (validateMergeCommits, validatePRTitle, the allowed-types
input handling in run) is embedded below directly from the JavaScript source.
Header parsing is delegated by the source to the external
conventional-commits-parser dependency, whose code is not in the repository;
the parser is therefore modelled from the spec's grammar.
-/

namespace CommitEnforcer

/-- ASCII word character, JavaScript regex class w: letters, digits, underscore. -/
def isWordChar (c : Char) : Bool := c.isAlphanum || c = '_'

/-- Whitespace as used by trimming and the regex class s (ASCII subset). -/
def isWsChar (c : Char) : Bool := c = ' ' || c = '\t' || c = '\n' || c = '\r'

/-- Lower-case a single ASCII character, leaving every other character alone. -/
def asciiLower (c : Char) : Char :=
  if 65 ≤ c.toNat ∧ c.toNat ≤ 90 then Char.ofNat (c.toNat + 32) else c

/-- Lower-case a string character by character (ASCII case folding). -/
def lowerString (s : String) : String := String.mk (s.data.map asciiLower)

/-- Drop whitespace from both ends of a character list (JavaScript trim). -/
def trimChars (l : List Char) : List Char :=
  ((l.dropWhile isWsChar).reverse.dropWhile isWsChar).reverse

/-- JavaScript String.prototype.trim on the embedded string type. -/
def jsTrim (s : String) : String := String.mk (trimChars s.data)

/-- The first line of a message: message.split with a newline, element 0. -/
def firstLine (s : String) : String :=
  String.mk (s.data.takeWhile (fun c => !(c = '\n')))

/-- JavaScript String.prototype.split on a one-character separator. -/
def splitChars (sep : Char) : List Char → List (List Char)
  | [] => [[]]
  | c :: cs =>
    let r := splitChars sep cs
    if c = sep then [] :: r else (c :: r.headD []) :: r.tail

/-- A parsed commit header, the record the parser hands to the evaluator:
absent type or subject is the failure signal. -/
structure ParsedCommit where
  type : Option String
  scope : Option String
  breaking : Bool
  subject : Option String
  rawHeader : String
deriving DecidableEq

/-- Modelled from the spec: the optional scope group of the header grammar,
a parenthesized run of one or more characters other than the closing
parenthesis. Returns the scope (or none) and the rest of the header, or
fails when an opening parenthesis is not completed by a well-formed group. -/
def matchScope : List Char → Option (Option String × List Char)
  | '(' :: rest =>
    (match rest.dropWhile (fun c => !(c = ')')) with
     | ')' :: r2 =>
       if (rest.takeWhile (fun c => !(c = ')'))).isEmpty then none
       else some (some (String.mk (rest.takeWhile (fun c => !(c = ')')))), r2)
     | _ => none)
  | r => some (none, r)

/-- Modelled from the spec: the optional breaking-change bang after the
type/scope segment. -/
def matchBang : List Char → Bool × List Char
  | '!' :: rest => (true, rest)
  | r => (false, r)

/-- Modelled from the spec: after the colon the grammar requires one or more
whitespace characters and a subject that is non-empty after trimming; the
subject is returned trimmed. -/
def matchSubject (r : List Char) : Option String :=
  if (r.takeWhile isWsChar).isEmpty then none
  else if (trimChars r).isEmpty then none
  else some (String.mk (trimChars r))

/-- Modelled from the spec: the conventional-commits-parser dependency is not
part of the repository, so the header grammar is taken from the spec —
type, optional parenthesized scope, optional bang, a colon followed by
whitespace, and a non-empty subject; the type token is returned lower-cased. -/
def matchHeader (l : List Char) : Option (String × Option String × Bool × String) :=
  let ty := l.takeWhile isWordChar
  if ty.isEmpty then none
  else
    match matchScope (l.dropWhile isWordChar) with
    | none => none
    | some (scope, r2) =>
      match matchBang r2 with
      | (breaking, ':' :: r4) =>
        match matchSubject r4 with
        | none => none
        | some subj => some (String.mk (ty.map asciiLower), scope, breaking, subj)
      | _ => none

/-- Modelled from the spec: parse one raw message; only the first line takes
part in structural matching, and on failure type and subject are both absent
with the raw header preserved. -/
def parse (raw : String) : ParsedCommit :=
  match matchHeader (firstLine raw).data with
  | some (t, sc, br, subj) =>
    { type := some t, scope := sc, breaking := br, subject := some subj,
      rawHeader := firstLine raw }
  | none =>
    { type := none, scope := none, breaking := false, subject := none,
      rawHeader := firstLine raw }

/-- One commit as the evaluator receives it: an identifier and a raw message. -/
structure Commit where
  sha : String
  message : String
deriving DecidableEq

/-- An entry of the invalidCommits list built by validateMergeCommits:
sha, first line of the message, full message, and a reason that is present
only for the disallowed-type branch. -/
structure InvalidCommit where
  sha : String
  message : String
  fullMessage : String
  reason : Option String
deriving DecidableEq

/-- The evaluator's observable verdict: the valid output, the total-commits
output and the invalidCommits list. -/
structure Verdict where
  valid : Bool
  total : Nat
  invalid : List InvalidCommit
deriving DecidableEq

/-- The if-chain of the loop body of validateMergeCommits (src/src/index.js):
the record pushed to invalidCommits, or none when the commit is valid.
A commit with absent type or subject is pushed without a reason field;
a commit whose type is not in allowedTypes is pushed with the reason string
built from the type and the comma-joined allow-list. -/
def commitInvalidRecord (allowedTypes : List String) (c : Commit) : Option InvalidCommit :=
  match (parse c.message).type, (parse c.message).subject with
  | some t, some _ =>
    if allowedTypes.contains t then none
    else some { sha := c.sha, message := firstLine c.message, fullMessage := c.message,
                reason := some ("Type '" ++ t ++ "' is not allowed. Allowed types: "
                  ++ String.intercalate ", " allowedTypes) }
  | _, _ =>
    some { sha := c.sha, message := firstLine c.message, fullMessage := c.message,
           reason := none }

/-- validateMergeCommits from src/src/index.js, its pure core: with no commits
it reports valid true and total 0 and returns early; otherwise it walks the
commits in order, collects the invalid records, and reports valid exactly when
none was collected. -/
def validateMergeCommits (commits : List Commit) (allowedTypes : List String) : Verdict :=
  if commits.length = 0 then { valid := true, total := 0, invalid := [] }
  else
    { valid := (commits.filterMap (commitInvalidRecord allowedTypes)).isEmpty,
      total := commits.length,
      invalid := commits.filterMap (commitInvalidRecord allowedTypes) }

/-- The invalid-commits record of the PR-title validator (one title, one
record): title and reason. -/
structure PRTitleInvalid where
  title : String
  reason : String
deriving DecidableEq

/-- The observable result of validatePRTitle: the valid output and the
invalid-commits list. -/
structure PRTitleResult where
  valid : Bool
  invalid : List PRTitleInvalid
deriving DecidableEq

/-- validatePRTitle, its pure core: parse the title, fail with the fixed
format reason when type or subject is absent, fail with the disallowed-type
reason when the type is not in the allow-list, succeed otherwise. -/
def validatePRTitle (prTitle : String) (allowedTypes : List String) : PRTitleResult :=
  match (parse prTitle).type, (parse prTitle).subject with
  | some t, some _ =>
    if allowedTypes.contains t then { valid := true, invalid := [] }
    else
      { valid := false,
        invalid := [{ title := prTitle,
                      reason := "Type '" ++ t ++ "' is not allowed. Allowed types: "
                        ++ String.intercalate ", " allowedTypes }] }
  | _, _ =>
    { valid := false,
      invalid := [{ title := prTitle,
                    reason := "PR title does not follow conventional commit format" }] }

/-- The default allowed-types configuration string of run (src/src/index.js). -/
def defaultAllowedTypes : String :=
  "feat,fix,docs,style,refactor,perf,test,build,ci,chore,revert"

/-- run substitutes the default when the allowed-types input is empty
(JavaScript or-chaining on the falsy empty string). -/
def allowedTypesInput (input : String) : String :=
  if input = "" then defaultAllowedTypes else input

/-- The allowedTypesArray of run: the configuration string split on commas,
each token trimmed. -/
def allowedTypesArray (input : String) : List String :=
  ((splitChars ',' (allowedTypesInput input).data).map String.mk).map jsTrim

/-! ### Helper lemmas -/

theorem charOfNat_toNat {n : Nat} (h : n < 55296) : (Char.ofNat n).toNat = n := by
  have hv : n.isValidChar := Or.inl h
  simp [Char.ofNat, hv, Char.ofNatAux, Char.toNat, UInt32.toNat]

theorem asciiLower_asciiLower (c : Char) : asciiLower (asciiLower c) = asciiLower c := by
  unfold asciiLower
  by_cases h : 65 ≤ c.toNat ∧ c.toNat ≤ 90
  · rw [if_pos h]
    have ht : (Char.ofNat (c.toNat + 32)).toNat = c.toNat + 32 :=
      charOfNat_toNat (by omega)
    rw [if_neg (by rw [ht]; omega)]
  · rw [if_neg h, if_neg h]

theorem map_asciiLower_idem (l : List Char) :
    (l.map asciiLower).map asciiLower = l.map asciiLower := by
  rw [List.map_map]
  exact List.map_congr_left (fun a _ => asciiLower_asciiLower a)

theorem lowerString_mk_map (l : List Char) :
    lowerString (String.mk (l.map asciiLower)) = String.mk (l.map asciiLower) := by
  unfold lowerString
  rw [show (String.mk (l.map asciiLower)).data = l.map asciiLower from rfl,
    map_asciiLower_idem]

theorem matchScope_rest {r : List Char} {sc : Option String} {r2 : List Char}
    (h : matchScope r = some (sc, r2)) : List.Sublist r2 r := by
  unfold matchScope at h
  split at h
  · rename_i rest
    split at h
    · rename_i r2' heq
      split at h
      · exact Option.noConfusion h
      · rw [Option.some.injEq, Prod.mk.injEq] at h
        have h1 : List.Sublist r2' (')' :: r2') := List.sublist_cons_self ')' r2'
        have h2 : List.Sublist (')' :: r2') rest := by
          rw [← heq]; exact List.dropWhile_sublist _
        exact h.2 ▸ ((h1.trans h2).trans (List.sublist_cons_self '(' rest))
    · exact Option.noConfusion h
  · rw [Option.some.injEq, Prod.mk.injEq] at h
    exact h.2 ▸ List.Sublist.refl _

theorem matchBang_rest (r : List Char) : List.Sublist (matchBang r).2 r := by
  unfold matchBang
  split
  · exact List.sublist_cons_self '!' _
  · exact List.Sublist.refl _

theorem matchHeader_colon {l : List Char} {x : String × Option String × Bool × String}
    (h : matchHeader l = some x) : ':' ∈ l := by
  simp only [matchHeader] at h
  split at h
  · exact Option.noConfusion h
  · split at h
    · exact Option.noConfusion h
    · rename_i scope r2 heq
      split at h
      · rename_i breaking r4 heq2
        have h1 : List.Sublist (':' :: r4) r2 := by
          have := matchBang_rest r2
          rw [heq2] at this
          exact this
        have h2 : List.Sublist r2 (l.dropWhile isWordChar) := matchScope_rest heq
        have h3 : (':' : Char) ∈ l.dropWhile isWordChar :=
          h2.mem (h1.mem (List.mem_cons_self ':' r4))
        exact (List.dropWhile_sublist isWordChar).mem h3
      · exact Option.noConfusion h

theorem matchHeader_type_eq {l : List Char} {t : String} {sc : Option String}
    {br : Bool} {subj : String} (h : matchHeader l = some (t, sc, br, subj)) :
    t = String.mk ((l.takeWhile isWordChar).map asciiLower) := by
  simp only [matchHeader] at h
  split at h
  · exact Option.noConfusion h
  · split at h
    · exact Option.noConfusion h
    · split at h
      · split at h
        · exact Option.noConfusion h
        · rw [Option.some.injEq, Prod.mk.injEq] at h
          exact h.1.symm
      · exact Option.noConfusion h

theorem parse_eq_of_firstLine_eq {x y : String} (h : firstLine x = firstLine y) :
    parse x = parse y := by
  unfold parse
  rw [h]

theorem parse_fail_of_matchHeader_none {raw : String}
    (h : matchHeader (firstLine raw).data = none) :
    (parse raw).type = none ∧ (parse raw).subject = none := by
  unfold parse
  rw [h]
  exact ⟨rfl, rfl⟩

theorem parse_type_lower {raw : String} {t : String}
    (h : (parse raw).type = some t) : lowerString t = t := by
  unfold parse at h
  split at h
  · rename_i t' sc br subj heq
    rw [Option.some.injEq] at h
    subst h
    rw [matchHeader_type_eq heq]
    exact lowerString_mk_map _
  · exact Option.noConfusion h

theorem commitInvalidRecord_malformed {c : Commit} (allowedTypes : List String)
    (h : (parse c.message).type = none ∨ (parse c.message).subject = none) :
    commitInvalidRecord allowedTypes c =
      some { sha := c.sha, message := firstLine c.message, fullMessage := c.message,
             reason := none } := by
  cases hty : (parse c.message).type with
  | none => simp [commitInvalidRecord, hty]
  | some t =>
    cases hsub : (parse c.message).subject with
    | none => simp [commitInvalidRecord, hty, hsub]
    | some s =>
      rcases h with h | h
      · rw [hty] at h; exact Option.noConfusion h
      · rw [hsub] at h; exact Option.noConfusion h

theorem not_mem_of_contains_false {a : String} {l : List String}
    (h : l.contains a = false) : a ∉ l := by
  intro hm
  have h2 : l.elem a = false := h
  rw [List.elem_eq_true_of_mem hm] at h2
  cases h2

theorem mem_of_contains_true {a : String} {l : List String}
    (h : l.contains a = true) : a ∈ l := by
  by_cases hm : a ∈ l
  · exact hm
  · exfalso
    have h2 : l.elem a = true := h
    rcases List.mem_of_elem_eq_true h2 with hmm
    exact hm hmm

theorem commitInvalidRecord_disallowed {c : Commit} {allowedTypes : List String}
    {t s : String} (hty : (parse c.message).type = some t)
    (hsub : (parse c.message).subject = some s)
    (hm : allowedTypes.contains t = false) :
    commitInvalidRecord allowedTypes c =
      some { sha := c.sha, message := firstLine c.message, fullMessage := c.message,
             reason := some ("Type '" ++ t ++ "' is not allowed. Allowed types: "
               ++ String.intercalate ", " allowedTypes) } := by
  simp [commitInvalidRecord, hty, hsub, not_mem_of_contains_false hm]

theorem commitInvalidRecord_allowed {c : Commit} {allowedTypes : List String}
    {t s : String} (hty : (parse c.message).type = some t)
    (hsub : (parse c.message).subject = some s)
    (hm : allowedTypes.contains t = true) :
    commitInvalidRecord allowedTypes c = none := by
  simp [commitInvalidRecord, hty, hsub, mem_of_contains_true hm]

theorem commitInvalidRecord_fields {allowedTypes : List String} {c : Commit}
    {r : InvalidCommit} (h : commitInvalidRecord allowedTypes c = some r) :
    r.sha = c.sha ∧ r.message = firstLine c.message ∧ r.fullMessage = c.message := by
  unfold commitInvalidRecord at h
  split at h
  · split at h
    · exact Option.noConfusion h
    · rw [Option.some.injEq] at h
      subst h
      exact ⟨rfl, rfl, rfl⟩
  · rw [Option.some.injEq] at h
    subst h
    exact ⟨rfl, rfl, rfl⟩

theorem invalid_filterMap_sublist (allowedTypes : List String) (cs : List Commit) :
    List.Sublist
      ((cs.filterMap (commitInvalidRecord allowedTypes)).map
        (fun r => (r.sha, r.fullMessage)))
      (cs.map (fun c => (c.sha, c.message))) := by
  induction cs with
  | nil => simp
  | cons c cs ih =>
    cases h : commitInvalidRecord allowedTypes c with
    | none =>
      rw [List.filterMap_cons_none h, List.map_cons]
      exact ih.cons _
    | some r =>
      obtain ⟨h1, h2, h3⟩ := commitInvalidRecord_fields h
      rw [List.filterMap_cons_some h, List.map_cons, List.map_cons]
      rw [show (r.sha, r.fullMessage) = (c.sha, c.message) from by rw [h1, h3]]
      exact ih.cons₂ _

theorem takeWhile_append_of_all {p : Char → Bool} {l₁ : List Char} (l₂ : List Char)
    (h : ∀ c ∈ l₁, p c = true) : (l₁ ++ l₂).takeWhile p = l₁ ++ l₂.takeWhile p := by
  induction l₁ with
  | nil => simp
  | cons a l ih =>
    have ha : p a = true := h a (List.mem_cons_self a l)
    rw [List.cons_append, List.takeWhile_cons, ha]
    simp only [ite_true]
    rw [ih (fun c hc => h c (List.mem_cons_of_mem a hc)), List.cons_append]

theorem firstLine_of_no_newline {s : String} (h : ∀ c ∈ s.data, ¬ c = '\n') :
    firstLine s = s := by
  unfold firstLine
  rw [List.takeWhile_eq_self_iff.mpr (by intro a ha; simpa using h a ha)]

theorem firstLine_append_newline {h b : String} (hh : ∀ c ∈ h.data, ¬ c = '\n') :
    firstLine (h ++ "\n\n" ++ b) = h := by
  unfold firstLine
  rw [String.data_append, String.data_append,
    show ("\n\n" : String).data = ['\n', '\n'] from rfl, List.append_assoc,
    takeWhile_append_of_all _ (by intro c hc; simpa using hh c hc)]
  rw [show ((['\n', '\n'] ++ b.data).takeWhile fun c => !(c = '\n')) = [] from by
    rw [List.cons_append, List.takeWhile_cons]; simp]
  rw [List.append_nil]

theorem parse_fail_of_no_colon {s : String} (hc : ∀ c ∈ s.data, ¬ c = ':') :
    (parse s).type = none ∧ (parse s).subject = none := by
  apply parse_fail_of_matchHeader_none
  cases hm : matchHeader (firstLine s).data with
  | none => rfl
  | some x =>
    have h1 : (':' : Char) ∈ (firstLine s).data := matchHeader_colon hm
    have h2 : (':' : Char) ∈ s.data := by
      unfold firstLine at h1
      exact (List.takeWhile_sublist _).mem h1
    exact absurd rfl (hc ':' h2)

theorem matchSubject_all_ws {l : List Char} (hw : ∀ c ∈ l, isWsChar c = true) :
    matchSubject l = none := by
  cases l with
  | nil => rfl
  | cons c t =>
    have hc : isWsChar c = true := hw c (List.mem_cons_self c t)
    have hdrop : (c :: t).dropWhile isWsChar = [] := List.dropWhile_eq_nil_iff.mpr hw
    unfold matchSubject
    rw [if_neg (by rw [List.takeWhile_cons, hc]; simp)]
    rw [if_pos (by unfold trimChars; rw [hdrop]; rfl)]

theorem matchHeader_feat_colon_ws {l : List Char} (hw : ∀ c ∈ l, isWsChar c = true) :
    matchHeader ('f' :: 'e' :: 'a' :: 't' :: ':' :: l) = none := by
  have h1 : ('f' :: 'e' :: 'a' :: 't' :: ':' :: l).takeWhile isWordChar =
      ['f', 'e', 'a', 't'] := by
    repeat rw [List.takeWhile_cons]
    simp [show isWordChar 'f' = true from by decide,
      show isWordChar 'e' = true from by decide,
      show isWordChar 'a' = true from by decide,
      show isWordChar 't' = true from by decide,
      show isWordChar ':' = false from by decide]
  have h2 : ('f' :: 'e' :: 'a' :: 't' :: ':' :: l).dropWhile isWordChar = ':' :: l := by
    repeat rw [List.dropWhile_cons]
    simp [show isWordChar 'f' = true from by decide,
      show isWordChar 'e' = true from by decide,
      show isWordChar 'a' = true from by decide,
      show isWordChar 't' = true from by decide,
      show isWordChar ':' = false from by decide]
  simp only [matchHeader, h1, h2,
    show (['f', 'e', 'a', 't'] : List Char).isEmpty = false from rfl,
    Bool.false_eq_true, if_false,
    show matchScope (':' :: l) = some (none, ':' :: l) from rfl,
    show matchBang (':' :: l) = (false, ':' :: l) from rfl,
    matchSubject_all_ws hw]

/-! ### Claims -/

/-- C1 counterexample: the claim as stated fails — the evaluator's membership
test is exact, so with the allow-list FEAT the message feat: x, whose type
differs from the allow-listed token only in letter case, is classified
invalid. -/
theorem claim1_counterexample :
    (parse "feat: x").type = some "feat"
    ∧ lowerString "feat" = lowerString "FEAT"
    ∧ ("feat" : String) ≠ "FEAT"
    ∧ (validateMergeCommits [⟨"c1sha", "feat: x"⟩] ["FEAT"]).valid = false :=
  ⟨by decide, by decide, by decide, by decide⟩

/-- C1 (amended): parse returns the type token lower-cased (parsing Feat: x
and feat: x yields the identical type feat); the evaluator's allow-list
membership test is case-sensitive, so the case-insensitive end-to-end
behaviour holds exactly for lower-case allow-list tokens: a message whose
parsed type agrees with a lower-case allow-listed token up to letter case is
classified valid. -/
theorem claim1_type_matching :
    ((parse "Feat: x").type = some "feat" ∧ (parse "feat: x").type = some "feat")
    ∧ ∀ (sha raw : String) (allowedTypes : List String) (t s a : String),
        (parse raw).type = some t → (parse raw).subject = some s →
        a ∈ allowedTypes → lowerString a = a → lowerString t = lowerString a →
        commitInvalidRecord allowedTypes ⟨sha, raw⟩ = none := by
  refine ⟨⟨by decide, by decide⟩, ?_⟩
  intro sha raw allowedTypes t s a ht hs ha hla heq
  have hlt : lowerString t = t := parse_type_lower ht
  have hta : t = a := by rw [← hlt, heq, hla]
  subst hta
  exact commitInvalidRecord_allowed ht hs (List.elem_eq_true_of_mem ha)

/-- C1 witness: the amended theorem applied to the message Feat: x and the
allow-list containing feat. -/
theorem claim1_witness :
    commitInvalidRecord ["feat"] ⟨"w1", "Feat: x"⟩ = none :=
  claim1_type_matching.2 "w1" "Feat: x" ["feat"] "feat" "x" "feat"
    (by decide) (by decide) (by decide) (by decide) (by decide)

/-- C2 counterexample: for the malformed message update the code the commit
evaluator's invalid record carries no reason field at all, not the claimed
fixed reason string. -/
theorem claim2_counterexample :
    (validateMergeCommits [⟨"a1", "update the code"⟩] ["feat", "fix"]).invalid =
      [{ sha := "a1", message := "update the code", fullMessage := "update the code",
         reason := none }]
    ∧ (none : Option String) ≠ some "does not follow conventional commit format" :=
  ⟨by decide, by decide⟩

/-- C2 (amended): an entry whose parsed type or subject is absent is classified
invalid; in the commit evaluator the invalid record carries no reason string,
and in the PR-title evaluator the record carries the reason "PR title does not
follow conventional commit format". -/
theorem claim2_malformed_reason :
    ∀ (sha raw : String) (allowedTypes : List String),
      ((parse raw).type = none ∨ (parse raw).subject = none) →
      commitInvalidRecord allowedTypes ⟨sha, raw⟩ =
        some { sha := sha, message := firstLine raw, fullMessage := raw, reason := none }
      ∧ validatePRTitle raw allowedTypes =
          { valid := false,
            invalid := [{ title := raw,
                          reason := "PR title does not follow conventional commit format" }] } := by
  intro sha raw allowedTypes h
  refine ⟨commitInvalidRecord_malformed allowedTypes h, ?_⟩
  cases hty : (parse raw).type with
  | none => simp [validatePRTitle, hty]
  | some t =>
    cases hsub : (parse raw).subject with
    | none => simp [validatePRTitle, hty, hsub]
    | some s =>
      rcases h with h | h
      · rw [hty] at h; exact Option.noConfusion h
      · rw [hsub] at h; exact Option.noConfusion h

/-- C2 witness: the amended theorem applied to the malformed message
update the code. -/
theorem claim2_witness :
    commitInvalidRecord ["feat"] ⟨"w2", "update the code"⟩ =
      some { sha := "w2", message := "update the code", fullMessage := "update the code",
             reason := none }
    ∧ validatePRTitle "update the code" ["feat"] =
        { valid := false,
          invalid := [{ title := "update the code",
                        reason := "PR title does not follow conventional commit format" }] } :=
  claim2_malformed_reason "w2" "update the code" ["feat"] (Or.inl (by decide))

/-- C3: evaluating the empty input sequence against any allow-list yields the
verdict valid true, total 0, invalid empty — the empty batch trivially
satisfies the policy. -/
theorem claim3_empty_input (allowedTypes : List String) :
    validateMergeCommits [] allowedTypes =
      { valid := true, total := 0, invalid := [] } := rfl

/-- C4: with an empty allow-list, every entry whose parsed type and subject
are present is classified invalid at the type-membership step, with the
membership reason naming the type and the empty comma-joined list, and the
evaluation proceeds normally to a false verdict. -/
theorem claim4_empty_allowlist :
    ∀ (sha raw t s : String),
      (parse raw).type = some t → (parse raw).subject = some s →
      commitInvalidRecord [] ⟨sha, raw⟩ =
        some { sha := sha, message := firstLine raw, fullMessage := raw,
               reason := some ("Type '" ++ t ++ "' is not allowed. Allowed types: ") }
      ∧ (validateMergeCommits [⟨sha, raw⟩] []).valid = false := by
  intro sha raw t s ht hs
  have hrec := @commitInvalidRecord_disallowed ⟨sha, raw⟩ [] t s ht hs rfl
  constructor
  · rw [hrec]
    simp [String.intercalate]
  · simp [validateMergeCommits, List.filterMap_cons_some hrec]

/-- C4 witness: the empty allow-list theorem applied to feat: x. -/
theorem claim4_witness :
    commitInvalidRecord [] ⟨"w4", "feat: x"⟩ =
      some { sha := "w4", message := "feat: x", fullMessage := "feat: x",
             reason := some "Type 'feat' is not allowed. Allowed types: " }
    ∧ (validateMergeCommits [⟨"w4", "feat: x"⟩] []).valid = false :=
  claim4_empty_allowlist "w4" "feat: x" "feat" "x" (by decide) (by decide)

/-- C5 counterexample: for docs: update readme against the allow-list feat,
fix, the reason string the evaluator records starts with capital Type and a
period, not the exact string the claim gives. -/
theorem claim5_counterexample :
    (validateMergeCommits [⟨"a1b2c3d", "docs: update readme"⟩] ["feat", "fix"]).invalid =
      [{ sha := "a1b2c3d", message := "docs: update readme",
         fullMessage := "docs: update readme",
         reason := some "Type 'docs' is not allowed. Allowed types: feat, fix" }]
    ∧ (some "Type 'docs' is not allowed. Allowed types: feat, fix" : Option String) ≠
        some "type 'docs' is not allowed; allowed types: feat, fix" :=
  ⟨by decide, by decide⟩

/-- C5 (amended): for every entry whose parsed type and subject are present
but whose type is not in the allow-list, the invalid record's reason is
exactly "Type '<type>' is not allowed. Allowed types: <comma-joined list>". -/
theorem claim5_disallowed_reason :
    ∀ (sha raw t s : String) (allowedTypes : List String),
      (parse raw).type = some t → (parse raw).subject = some s →
      allowedTypes.contains t = false →
      commitInvalidRecord allowedTypes ⟨sha, raw⟩ =
        some { sha := sha, message := firstLine raw, fullMessage := raw,
               reason := some ("Type '" ++ t ++ "' is not allowed. Allowed types: "
                 ++ String.intercalate ", " allowedTypes) } := by
  intro sha raw t s allowedTypes ht hs hm
  exact commitInvalidRecord_disallowed ht hs hm

/-- C5 witness: the amended reason theorem applied to docs: update readme
against the allow-list feat, fix. -/
theorem claim5_witness :
    commitInvalidRecord ["feat", "fix"] ⟨"w5", "docs: update readme"⟩ =
      some { sha := "w5", message := "docs: update readme",
             fullMessage := "docs: update readme",
             reason := some "Type 'docs' is not allowed. Allowed types: feat, fix" } :=
  claim5_disallowed_reason "w5" "docs: update readme" "docs" "update readme"
    ["feat", "fix"] (by decide) (by decide) (by decide)

/-- C6: parse fails — type and subject both absent — on every header without
a colon separator, in particular on the bare type word feat, and on every
header of the shape feat: followed only by whitespace, whose text after the
colon is empty after trimming. -/
theorem claim6_parse_failures :
    (∀ s : String, (∀ c ∈ s.data, ¬ c = ':') →
        (parse s).type = none ∧ (parse s).subject = none)
    ∧ ((parse "feat").type = none ∧ (parse "feat").subject = none)
    ∧ ∀ rest : String, (∀ c ∈ rest.data, isWsChar c = true) →
        (parse ("feat:" ++ rest)).type = none
        ∧ (parse ("feat:" ++ rest)).subject = none := by
  refine ⟨fun s hc => parse_fail_of_no_colon hc, ⟨by decide, by decide⟩, ?_⟩
  intro rest hw
  apply parse_fail_of_matchHeader_none
  have hfl : ("feat:" ++ rest).data.takeWhile (fun c => !(c = '\n')) =
      'f' :: 'e' :: 'a' :: 't' :: ':' :: rest.data.takeWhile (fun c => !(c = '\n')) := by
    rw [String.data_append,
      show ("feat:" : String).data = ['f', 'e', 'a', 't', ':'] from rfl,
      takeWhile_append_of_all _ (by decide)]
    simp
  show matchHeader (("feat:" ++ rest).data.takeWhile (fun c => !(c = '\n'))) = none
  rw [hfl]
  exact matchHeader_feat_colon_ws
    (fun c hc => hw c ((List.takeWhile_sublist _).mem hc))

/-- C6 witness: the parse-failure theorem applied to the colon-free header
update the code and to feat: followed by spaces. -/
theorem claim6_witness :
    ((parse "update the code").type = none ∧ (parse "update the code").subject = none)
    ∧ (parse ("feat:" ++ "   ")).type = none ∧ (parse ("feat:" ++ "   ")).subject = none :=
  ⟨claim6_parse_failures.1 "update the code" (by decide),
   claim6_parse_failures.2.2 "   " (by decide)⟩

/-- C7: the evaluator's invalid list preserves input order — projected to
identifier and raw message it is a sublist of the input sequence — and
each invalid record carries the original identifier and the first line of
its raw message. -/
theorem claim7_order_preserved (commits : List Commit) (allowedTypes : List String) :
    List.Sublist
      (((validateMergeCommits commits allowedTypes).invalid).map
        (fun r => (r.sha, r.fullMessage)))
      (commits.map (fun c => (c.sha, c.message)))
    ∧ ∀ r ∈ (validateMergeCommits commits allowedTypes).invalid,
        r.message = firstLine r.fullMessage := by
  unfold validateMergeCommits
  split
  · refine ⟨by simp, ?_⟩
    intro r hr
    simp at hr
  · refine ⟨invalid_filterMap_sublist allowedTypes commits, ?_⟩
    intro r hr
    simp only at hr
    obtain ⟨c, _, hrc⟩ := List.mem_filterMap.mp hr
    obtain ⟨_, h2, h3⟩ := commitInvalidRecord_fields hrc
    rw [h2, h3]

/-- C8: only the first line of a multi-line message takes part in parsing —
appending a blank line and a body to a valid allowed header leaves the parse
result unchanged and the verdict valid. -/
theorem claim8_first_line_only :
    ∀ (sha header body : String) (allowedTypes : List String) (t s : String),
      (∀ c ∈ header.data, ¬ c = '\n') →
      (parse header).type = some t → (parse header).subject = some s →
      allowedTypes.contains t = true →
      parse (header ++ "\n\n" ++ body) = parse header
      ∧ (validateMergeCommits [⟨sha, header ++ "\n\n" ++ body⟩] allowedTypes).valid = true := by
  intro sha header body allowedTypes t s hnl ht hs ha
  have hfl : firstLine (header ++ "\n\n" ++ body) = firstLine header := by
    rw [firstLine_append_newline hnl, firstLine_of_no_newline hnl]
  have hp : parse (header ++ "\n\n" ++ body) = parse header := parse_eq_of_firstLine_eq hfl
  refine ⟨hp, ?_⟩
  have ht2 : (parse (Commit.mk sha (header ++ "\n\n" ++ body)).message).type = some t := by
    show (parse (header ++ "\n\n" ++ body)).type = some t
    rw [hp]; exact ht
  have hs2 : (parse (Commit.mk sha (header ++ "\n\n" ++ body)).message).subject = some s := by
    show (parse (header ++ "\n\n" ++ body)).subject = some s
    rw [hp]; exact hs
  have hrec : commitInvalidRecord allowedTypes ⟨sha, header ++ "\n\n" ++ body⟩ = none :=
    commitInvalidRecord_allowed ht2 hs2 ha
  simp [validateMergeCommits, List.filterMap_cons_none hrec]

/-- C8 witness: the first-line theorem applied to the message
fix: resolve issue followed by a blank line and Closes #123, against the
default allow-list. -/
theorem claim8_witness :
    (validateMergeCommits
      [⟨"w8", "fix: resolve issue" ++ "\n\n" ++ "Closes #123"⟩]
      (allowedTypesArray "")).valid = true :=
  (claim8_first_line_only "w8" "fix: resolve issue" "Closes #123"
    (allowedTypesArray "") "fix" "resolve issue"
    (by decide) (by decide) (by decide) (by decide)).2

/-- C9: an empty allowed-types configuration input is replaced by the default
comma-separated list before splitting, so the evaluator receives the
eleven default types, never an empty allow-list. -/
theorem claim9_default_allowlist :
    allowedTypesInput "" = defaultAllowedTypes
    ∧ allowedTypesArray "" =
        ["feat", "fix", "docs", "style", "refactor", "perf", "test", "build", "ci",
         "chore", "revert"]
    ∧ allowedTypesArray "" ≠ [] :=
  ⟨rfl, by decide, by decide⟩

/-- C10: the allowed-types configuration string is split on commas and each
token trimmed, so the padded configuration feat, fix, docs (with spaces)
yields the same allow-list as feat,fix,docs, and a docs message is classified
valid under both. -/
theorem claim10_split_and_trim :
    allowedTypesArray "feat, fix, docs " = ["feat", "fix", "docs"]
    ∧ allowedTypesArray "feat, fix, docs " = allowedTypesArray "feat,fix,docs"
    ∧ (validateMergeCommits [⟨"a1", "docs: update documentation"⟩]
        (allowedTypesArray "feat, fix, docs ")).valid = true
    ∧ (validateMergeCommits [⟨"a1", "docs: update documentation"⟩]
        (allowedTypesArray "feat, fix, docs ")).valid =
      (validateMergeCommits [⟨"a1", "docs: update documentation"⟩]
        (allowedTypesArray "feat,fix,docs")).valid :=
  ⟨by decide, by decide, by decide, by decide⟩

end CommitEnforcer
